import Mathlib

/-!
Verification development for the Cortex context manager's hybrid search and
ranking engine.  The data model and the engine operations are shallowly
embedded below; theorems about them follow after all definitions.

The repository ships the Vue frontend, the README and packaging scripts; the
FastAPI backend that implements the engine (embedding lifecycle, scorers,
hybrid ranker, mutation pipeline) is not part of the available sources, so
those components are modelled from the specification, while the frontend
logic (`filteredContextItems` in Contexts.vue) is translated from the source.
-/

namespace Cortex

/-- A stored context item, after the data model: README "Context Item
Structure" and the frontend type `ContextItem` in types/api.ts.  Timestamps
are modelled as naturals, the embedding vector as an optional list of
rationals (dimension `D` floats in the implementation). -/
structure ContextItem where
  id : Nat
  title : String
  content : String
  content_type : String
  tags : List String
  source : Option String := none
  project_id : Option String := none
  is_active : Bool := true
  created_at : Nat
  updated_at : Nat
  vector : Option (List ℚ) := none
  deriving DecidableEq, Repr

/-- A project record, after the frontend type `ContextProject` in
types/api.ts. -/
structure ContextProject where
  id : String
  name : String
  description : Option String := none
  is_active : Bool := true
  created_at : Nat
  updated_at : Nat
  deriving DecidableEq, Repr

/-- Splits a character stream into maximal alphanumeric runs; `cur` holds
the (reversed) run being read. -/
def tokensAux : List Char → List Char → List (List Char)
  | cur, [] => if cur.isEmpty then [] else [cur.reverse]
  | cur, c :: cs =>
    if c.isAlphanum then tokensAux (c :: cur) cs
    else if cur.isEmpty then tokensAux [] cs
    else cur.reverse :: tokensAux [] cs

/-- Modelled from the spec: the Keyword Scorer's tokenizer (§4.3), missing
with the backend sources — "tokenizes both (case-insensitive, split on
non-alphanumeric boundaries)".  Empty fragments produced by consecutive
separators are not terms. -/
def tokenize (s : String) : List String :=
  (tokensAux [] (s.data.map Char.toLower)).map List.asString

/-- Modelled from the spec: the fixed ceiling `content_term_count_cap`
of §4.3 ("a fixed ceiling, e.g. 1"). -/
def contentTermCountCap : ℚ := 1

/-- Modelled from the spec: the Keyword Scorer (§4.3), missing with the
backend sources.  `score = (2 * matches_in_title + matches_in_content) /
(2 * query_term_count + content_term_count_cap)` where matches count
distinct query terms found at least once and an empty query yields 0. -/
def keywordScore (query title content : String) : ℚ :=
  let qterms := (tokenize query).dedup
  let titleTokens := tokenize title
  let contentTokens := tokenize content
  let matchesInTitle := (qterms.filter fun t => titleTokens.contains t).length
  let matchesInContent := (qterms.filter fun t => contentTokens.contains t).length
  if qterms.length = 0 then 0
  else ((2 * matchesInTitle + matchesInContent : ℚ)) /
    (2 * qterms.length + contentTermCountCap)

/-- Modelled from the spec: the default hybrid weight (§4.4, "default 0.7"),
also the frontend initial value `semanticWeight = 0.7` in Contexts.vue. -/
def defaultSemanticWeight : ℚ := 7 / 10

/-- The recognised search modes, after `SearchType` in types/api.ts
(`semantic`, `keyword`, `hybrid`).  The mode travels as a string so that an
unknown mode is representable (§4.4 error conditions). -/
def knownModes : List String := ["semantic", "keyword", "hybrid"]

/-- A search request, after `ContextSearchQuery` in types/api.ts and the
Hybrid Ranker inputs of §4.4.  `limit`/`offset` are integers so that the
negative-parameter error condition is representable. -/
structure SearchQuery where
  query : String
  mode : String
  project_id : Option String := none
  content_types : Option (List String) := none
  tags : Option (List String) := none
  semantic_weight : ℚ := defaultSemanticWeight
  limit : Int
  offset : Int
  deriving DecidableEq, Repr

/-- Modelled from the spec: §4.4 error conditions — `limit < 0` or
`offset < 0`, `semantic_weight` outside `[0,1]`, or an unknown `mode`
fail with `InvalidQuery`. -/
def validQuery (q : SearchQuery) : Prop :=
  0 ≤ q.limit ∧ 0 ≤ q.offset ∧
    0 ≤ q.semantic_weight ∧ q.semantic_weight ≤ 1 ∧ q.mode ∈ knownModes

instance : DecidablePred validQuery := fun q => by
  unfold validQuery; infer_instance

/-- Modelled from the spec: §4.4 step 1 — retain active items matching all
supplied filters (AND across dimensions; OR/set-membership within
`tags`/`content_types`). -/
def matchesFilters (q : SearchQuery) (it : ContextItem) : Bool :=
  it.is_active
    && (match q.project_id with
        | none => true
        | some p => it.project_id == some p)
    && (match q.content_types with
        | none => true
        | some cts => cts.contains it.content_type)
    && (match q.tags with
        | none => true
        | some ts => ts.any fun t => it.tags.contains t)

/-- Modelled from the spec: §4.2 — an item lacking a vector has semantic
score `0`; otherwise the pluggable semantic scorer (§9 "Pluggable scorers")
scores the query against the stored vector. -/
def itemSemanticScore (sem : String → List ℚ → ℚ) (query : String)
    (it : ContextItem) : ℚ :=
  match it.vector with
  | none => 0
  | some v => sem query v

/-- The keyword score of an item: §4.3 scores the query against the item's
`title`+`content`. -/
def itemKeywordScore (query : String) (it : ContextItem) : ℚ :=
  keywordScore query it.title it.content

/-- Modelled from the spec: §4.4 step 2 — per-mode combined score.
For mode=hybrid `combined_score = semantic_weight * semantic_score +
(1 - semantic_weight) * keyword_score`; for mode=semantic the semantic
score; for mode=keyword the keyword score. -/
def combinedScore (sem : String → List ℚ → ℚ) (q : SearchQuery)
    (it : ContextItem) : ℚ :=
  if q.mode = "semantic" then itemSemanticScore sem q.query it
  else if q.mode = "keyword" then itemKeywordScore q.query it
  else
    q.semantic_weight * itemSemanticScore sem q.query it +
      (1 - q.semantic_weight) * itemKeywordScore q.query it

/-- An item paired with its combined score, after `ContextItem` with
`combined_score` in types/api.ts. -/
structure ScoredItem where
  item : ContextItem
  combined_score : ℚ
  deriving DecidableEq, Repr

/-- Modelled from the spec: §4.4 step 4 — results are ordered descending by
`combined_score`; ties broken by `created_at` descending, then by `id`
descending.  `rankedBefore a b` states that `a` may precede `b`. -/
def rankedBefore (a b : ScoredItem) : Prop :=
  b.combined_score < a.combined_score ∨
    (b.combined_score = a.combined_score ∧
      (b.item.created_at < a.item.created_at ∨
        (b.item.created_at = a.item.created_at ∧ b.item.id ≤ a.item.id)))

instance : DecidableRel rankedBefore := fun a b => by
  unfold rankedBefore; infer_instance

instance : IsTotal ScoredItem rankedBefore where
  total a b := by
    unfold rankedBefore
    rcases lt_trichotomy a.combined_score b.combined_score with h | h | h
    · exact Or.inr (Or.inl h)
    · rcases lt_trichotomy a.item.created_at b.item.created_at with h' | h' | h'
      · exact Or.inr (Or.inr ⟨h, Or.inl h'⟩)
      · rcases Nat.le_total a.item.id b.item.id with h'' | h''
        · exact Or.inr (Or.inr ⟨h, Or.inr ⟨h', h''⟩⟩)
        · exact Or.inl (Or.inr ⟨h.symm, Or.inr ⟨h'.symm, h''⟩⟩)
      · exact Or.inl (Or.inr ⟨h.symm, Or.inl h'⟩)
    · exact Or.inl (Or.inl h)

instance : IsTrans ScoredItem rankedBefore where
  trans a b c hab hbc := by
    unfold rankedBefore at *
    rcases hab with h1 | ⟨h1, h2⟩
    · rcases hbc with h3 | ⟨h3, _⟩
      · exact Or.inl (lt_trans h3 h1)
      · exact Or.inl (h3 ▸ h1)
    · rcases hbc with h3 | ⟨h3, h4⟩
      · exact Or.inl (h1 ▸ h3)
      · refine Or.inr ⟨h1 ▸ h3, ?_⟩
        rcases h2 with h2 | ⟨h2, h5⟩
        · rcases h4 with h4 | ⟨h4, _⟩
          · exact Or.inl (lt_trans h4 h2)
          · exact Or.inl (h4 ▸ h2)
        · rcases h4 with h4 | ⟨h4, h6⟩
          · exact Or.inl (h2 ▸ h4)
          · exact Or.inr ⟨h2 ▸ h4, le_trans h6 h5⟩

/-- Modelled from the spec: §4.4 steps 1–4 of the Hybrid Ranker, missing
with the backend sources — filter the store, score each candidate, drop
zero-relevance items (per the §4.3/§8 contract an empty keyword query
matches nothing rather than everything), and sort by the deterministic
ranking order. -/
def rankCandidates (sem : String → List ℚ → ℚ) (q : SearchQuery)
    (store : List ContextItem) : List ScoredItem :=
  List.insertionSort rankedBefore
    (((store.filter (matchesFilters q)).map fun it =>
        ScoredItem.mk it (combinedScore sem q it)).filter fun s =>
      decide (s.combined_score ≠ 0))

/-- The error taxonomy surfaced to callers (§7): invalid parameters and
missing ids. -/
inductive SearchError where
  | InvalidQuery
  | NotFound
  deriving DecidableEq, Repr

/-- A search response, after `ContextSearchResult` in types/api.ts:
the scored items of the requested page, the total count before pagination,
and the measured execution time. -/
structure SearchResult where
  items : List ScoredItem
  total : Nat
  execution_time_ms : ℚ
  deriving DecidableEq, Repr

/-- Modelled from the spec: the `search` entry point (§4.4/§6), missing with
the backend sources.  Validates the parameters, ranks the candidates, applies
`offset`/`limit` pagination with `total` reporting the pre-pagination count,
and reports the wall-clock duration supplied by the surrounding runtime as
`execution_time_ms`.  An empty result set is a successful outcome. -/
def search (sem : String → List ℚ → ℚ) (q : SearchQuery)
    (store : List ContextItem) (elapsedMs : ℚ) :
    Except SearchError SearchResult :=
  if validQuery q then
    let ranked := rankCandidates sem q store
    Except.ok
      { items := (ranked.drop q.offset.toNat).take q.limit.toNat
        total := ranked.length
        execution_time_ms := elapsedMs }
  else Except.error SearchError.InvalidQuery

/-- Modelled from the spec: the listing entry point (README
`GET /api/context/items` with pagination; §3 "Inactive items are excluded
from all search and listing"). -/
def listItems (store : List ContextItem) (limit offset : Nat) :
    List ContextItem :=
  ((store.filter fun it => it.is_active).drop offset).take limit

/-- A partial update of a context item, after `ContextItemUpdate` in
types/api.ts: every field optional, absent fields left untouched. -/
structure ItemPatch where
  title : Option String := none
  content : Option String := none
  content_type : Option String := none
  tags : Option (List String) := none
  source : Option String := none
  project_id : Option String := none
  is_active : Option Bool := none
  deriving DecidableEq, Repr

/-- Modelled from the spec: the Mutation Pipeline's update step (§4.5),
missing with the backend sources — recompute the embedding iff `content`
changed; metadata-only updates must not trigger re-embedding; embedding
failure is non-fatal (§4.1), the item persists without a fresh vector. -/
def applyUpdate (embed : String → Option (List ℚ)) (it : ContextItem)
    (p : ItemPatch) (now : Nat) : ContextItem :=
  let newContent := p.content.getD it.content
  let base : ContextItem :=
    { it with
      title := p.title.getD it.title
      content := newContent
      content_type := p.content_type.getD it.content_type
      tags := p.tags.getD it.tags
      source := match p.source with
        | some s => some s
        | none => it.source
      project_id := match p.project_id with
        | some s => some s
        | none => it.project_id
      is_active := p.is_active.getD it.is_active
      updated_at := now }
  if newContent = it.content then base
  else
    match embed newContent with
    | some v => { base with vector := some v }
    | none => base

/-- Modelled from the spec: the soft-delete step (§4.5), missing with the
backend sources — no embedding work; `is_active := false`, `updated_at`
refreshed; the row remains in the store.  Fails with `NotFound` when the id
is absent (§6). -/
def softDelete (store : List ContextItem) (id : Nat) (now : Nat) :
    Except SearchError (List ContextItem) :=
  if store.any fun it => it.id == id then
    Except.ok (store.map fun it =>
      if it.id = id then { it with is_active := false, updated_at := now }
      else it)
  else Except.error SearchError.NotFound

/-! ### The Semantic Scorer over the reals

§4.2 computes cosine similarity with real square roots; it is embedded over
`ℝ`, the idealisation of the implementation's floating-point vectors. -/

/-- Modelled from the spec: the dot product of two equal-dimension vectors
(§4.2), missing with the backend sources. -/
noncomputable def dotList : List ℝ → List ℝ → ℝ
  | a :: q, b :: v => a * b + dotList q v
  | _, _ => 0

/-- Modelled from the spec: a vector's Euclidean magnitude `|v|` (§4.2). -/
noncomputable def magnitude (v : List ℝ) : ℝ :=
  Real.sqrt (dotList v v)

/-- Modelled from the spec: the Semantic Scorer (§4.2), missing with the
backend sources — `sim = dot(q, v) / (|q| * |v|)` normalised into `[0,1]`
via `(sim + 1) / 2`; a query or candidate with zero magnitude yields `0`
rather than dividing by zero. -/
noncomputable def semanticScore (q v : List ℝ) : ℝ :=
  if magnitude q = 0 ∨ magnitude v = 0 then 0
  else (dotList q v / (magnitude q * magnitude v) + 1) / 2

/-! ### The frontend's result ordering (Contexts.vue) -/

/-- The sortable table columns of Contexts.vue (`handleSort` is wired to
these five headers). -/
inductive SortField where
  | title
  | content_type
  | content
  | tags
  | created_at
  deriving DecidableEq, Repr

/-- The client-side sort direction toggled by `handleSort`. -/
inductive SortDirection where
  | asc
  | desc
  deriving DecidableEq, Repr

/-- The search response as consumed by the frontend (`searchResults` holds a
`ContextSearchResult`; only the fields the view reads are modelled). -/
structure FESearchResult where
  items : List ContextItem
  total : Nat
  deriving DecidableEq, Repr

/-- The comparison key `filteredContextItems` derives per column:
`created_at` compares as a timestamp, `tags` as the `", "`-join, and the
string columns case-insensitively (`toLowerCase`). -/
def fieldKey (f : SortField) (it : ContextItem) : String ⊕ Nat :=
  match f with
  | SortField.created_at => Sum.inr it.created_at
  | SortField.tags => Sum.inl (String.intercalate ", " it.tags)
  | SortField.title => Sum.inl it.title.toLower
  | SortField.content => Sum.inl it.content.toLower
  | SortField.content_type => Sum.inl it.content_type.toLower

/-- Ordering on sort keys (string keys compare lexicographically, numeric
keys numerically; a fixed field never mixes the two shapes). -/
def keyLE : String ⊕ Nat → String ⊕ Nat → Prop
  | Sum.inl a, Sum.inl b => a ≤ b
  | Sum.inr a, Sum.inr b => a ≤ b
  | Sum.inl _, Sum.inr _ => True
  | Sum.inr _, Sum.inl _ => False

instance : DecidableRel keyLE := fun a b => by
  unfold keyLE
  rcases a with a | a <;> rcases b with b | b <;> infer_instance

/-- The client-side column sort of `filteredContextItems` in Contexts.vue
(`[...filtered].sort(comparator)`). -/
def clientSort (f : SortField) (d : SortDirection) (l : List ContextItem) :
    List ContextItem :=
  match d with
  | SortDirection.asc =>
      List.insertionSort (fun a b => keyLE (fieldKey f a) (fieldKey f b)) l
  | SortDirection.desc =>
      List.insertionSort (fun a b => keyLE (fieldKey f b) (fieldKey f a)) l

/-- `filteredContextItems` from Contexts.vue: use the search results when
present, otherwise the fetched items; apply the client-side column sort only
when a sort field is set and no search results are present. -/
def filteredContextItems (searchResults : Option FESearchResult)
    (contextItems : List ContextItem) (sortField : Option SortField)
    (sortDirection : SortDirection) : List ContextItem :=
  let filtered := match searchResults with
    | some r => r.items
    | none => contextItems
  match sortField, searchResults with
  | some f, none => clientSort f sortDirection filtered
  | _, _ => filtered

/-! ### Helper lemmas -/

theorem search_ok_iff (sem : String → List ℚ → ℚ) (q : SearchQuery)
    (store : List ContextItem) (t : ℚ) (res : SearchResult) :
    search sem q store t = Except.ok res ↔
      validQuery q ∧
        res = { items := ((rankCandidates sem q store).drop
                  q.offset.toNat).take q.limit.toNat
                total := (rankCandidates sem q store).length
                execution_time_ms := t } := by
  unfold search
  split_ifs with hv
  · simp only [Except.ok.injEq, hv, true_and]
    exact eq_comm
  · simp [hv]

theorem dotList_self_nonneg (v : List ℝ) : 0 ≤ dotList v v := by
  induction v with
  | nil => simp [dotList]
  | cons a v ih =>
    have ha := mul_self_nonneg a
    simp only [dotList]
    linarith

theorem dotList_sq_le (q v : List ℝ) :
    dotList q v ^ 2 ≤ dotList q q * dotList v v := by
  induction q generalizing v with
  | nil =>
    have := dotList_self_nonneg v
    simp [dotList]
  | cons a q ih =>
    cases v with
    | nil => simp [dotList]
    | cons b v =>
      have hQ := dotList_self_nonneg q
      have hV := dotList_self_nonneg v
      have ihv := ih v
      simp only [dotList]
      rcases eq_or_lt_of_le hV with hV0 | hVpos
      · have hS2 : dotList q v ^ 2 ≤ 0 := by
          calc dotList q v ^ 2 ≤ dotList q q * dotList v v := ihv
            _ = 0 := by rw [← hV0, mul_zero]
        have hS : dotList q v = 0 :=
          (pow_eq_zero_iff two_ne_zero).mp (le_antisymm hS2 (sq_nonneg _))
        rw [hS, ← hV0]
        nlinarith [mul_nonneg hQ (mul_self_nonneg b), sq_nonneg (a * b)]
      · have key : dotList v v *
            ((a * a + dotList q q) * (b * b + dotList v v) -
              (a * b + dotList q v) ^ 2) =
            (a * dotList v v - b * dotList q v) ^ 2 +
              (dotList q q * dotList v v - dotList q v ^ 2) *
                (b * b + dotList v v) := by ring
        have hb : (0 : ℝ) ≤ b * b + dotList v v := by
          have := mul_self_nonneg b
          linarith
        have h1 : 0 ≤ (a * dotList v v - b * dotList q v) ^ 2 +
            (dotList q q * dotList v v - dotList q v ^ 2) *
              (b * b + dotList v v) :=
          add_nonneg (sq_nonneg _) (mul_nonneg (sub_nonneg.mpr ihv) hb)
        have h2 : 0 ≤ dotList v v *
            ((a * a + dotList q q) * (b * b + dotList v v) -
              (a * b + dotList q v) ^ 2) := key ▸ h1
        have h3 := (mul_nonneg_iff_of_pos_left hVpos).mp h2
        linarith

theorem keywordScore_empty (title content : String) :
    keywordScore "" title content = 0 := rfl

/-! ### Claim theorems and their witnesses -/

/-- C6: for every query vector and candidate vector of equal dimension, the
semantic score is total and lies in `[0,1]` (cosine similarity normalised via
`(sim + 1) / 2`); when either vector has zero magnitude the score is `0`
rather than a division by zero, and outside that degenerate case the
divisor `|q| * |v|` is nonzero, so the division-by-zero branch is
unreachable. -/
theorem semantic_score_bounds (q v : List ℝ) (hlen : q.length = v.length) :
    (0 ≤ semanticScore q v ∧ semanticScore q v ≤ 1) ∧
      ((magnitude q = 0 ∨ magnitude v = 0) → semanticScore q v = 0) ∧
      (¬(magnitude q = 0 ∨ magnitude v = 0) →
        magnitude q * magnitude v ≠ 0) := by
  by_cases h : magnitude q = 0 ∨ magnitude v = 0
  · refine ⟨?_, fun _ => ?_, fun hn => absurd h hn⟩
    · unfold semanticScore
      rw [if_pos h]
      norm_num
    · unfold semanticScore
      rw [if_pos h]
  · have h₀ := h
    push_neg at h
    have hq : 0 < magnitude q :=
      lt_of_le_of_ne (Real.sqrt_nonneg _) (Ne.symm h.1)
    have hv' : 0 < magnitude v :=
      lt_of_le_of_ne (Real.sqrt_nonneg _) (Ne.symm h.2)
    have hP : 0 < magnitude q * magnitude v := mul_pos hq hv'
    have hQ := dotList_self_nonneg q
    have hV := dotList_self_nonneg v
    have hmq : magnitude q ^ 2 = dotList q q := Real.sq_sqrt hQ
    have hmv : magnitude v ^ 2 = dotList v v := Real.sq_sqrt hV
    have hcs : dotList q v ^ 2 ≤ (magnitude q * magnitude v) ^ 2 := by
      calc dotList q v ^ 2 ≤ dotList q q * dotList v v := dotList_sq_le q v
        _ = (magnitude q * magnitude v) ^ 2 := by rw [mul_pow, hmq, hmv]
    have habs : |dotList q v| ≤ magnitude q * magnitude v := by
      have h1 := Real.sqrt_le_sqrt hcs
      rwa [Real.sqrt_sq_eq_abs, Real.sqrt_sq_eq_abs,
        abs_of_nonneg hP.le] at h1
    have hsim1 : dotList q v / (magnitude q * magnitude v) ≤ 1 :=
      (div_le_one hP).mpr (le_of_abs_le habs)
    have hsim2 : -1 ≤ dotList q v / (magnitude q * magnitude v) := by
      rw [le_div_iff₀ hP]
      have := neg_abs_le (dotList q v)
      linarith
    unfold semanticScore
    rw [if_neg h₀]
    exact ⟨⟨by linarith, by linarith⟩, fun hc => absurd hc h₀,
      fun _ => ne_of_gt hP⟩

instance {ε α : Type} [DecidableEq ε] [DecidableEq α] :
    DecidableEq (Except ε α) := fun a b =>
  match a, b with
  | Except.ok x, Except.ok y => decidable_of_iff (x = y) (by simp)
  | Except.error x, Except.error y => decidable_of_iff (x = y) (by simp)
  | Except.ok _, Except.error _ => isFalse (by simp)
  | Except.error _, Except.ok _ => isFalse (by simp)

/-- Witness for C6 at the one-dimensional vectors `[1]` and `[1]`. -/
theorem semantic_score_bounds_witness :
    ([1] : List ℝ).length = ([1] : List ℝ).length ∧
      ((0 ≤ semanticScore [1] [1] ∧ semanticScore [1] [1] ≤ 1) ∧
        ((magnitude [1] = 0 ∨ magnitude [1] = 0) →
          semanticScore [1] [1] = 0) ∧
        (¬(magnitude [1] = 0 ∨ magnitude [1] = 0) →
          magnitude [1] * magnitude [1] ≠ 0)) :=
  ⟨rfl, semantic_score_bounds [1] [1] rfl⟩

/-! Concrete fixtures used by the witnesses below: a two-item store, a
semantic scorer reading the stored vector's head, and a semantic-mode
query that ranks both items with distinct scores. -/

def wSem : String → List ℚ → ℚ := fun _ v => v.headD 0

def wItemA : ContextItem :=
  { id := 1, title := "alpha", content := "alpha content",
    content_type := "text", tags := ["a"], created_at := 10,
    updated_at := 10, vector := some [2] }

def wItemB : ContextItem :=
  { id := 2, title := "beta", content := "beta content",
    content_type := "text", tags := ["b"], created_at := 20,
    updated_at := 20, vector := some [1] }

def wStore : List ContextItem := [wItemB, wItemA]

def wQuery : SearchQuery :=
  { query := "alpha", mode := "semantic", semantic_weight := 1,
    limit := 10, offset := 0 }

def wRes : SearchResult :=
  { items := [ScoredItem.mk wItemA 2, ScoredItem.mk wItemB 1],
    total := 2, execution_time_ms := 1 }

/-- C1: for every search call and store state, the returned items satisfy
the deterministic total order: any two adjacent results are descending in
`combined_score`, with ties broken by `created_at` descending and then by
`id` descending. -/
theorem search_results_sorted (sem : String → List ℚ → ℚ) (q : SearchQuery)
    (store : List ContextItem) (t : ℚ) (res : SearchResult)
    (hres : search sem q store t = Except.ok res)
    (i : Nat) (hi : i + 1 < res.items.length) :
    (res.items.get ⟨i + 1, hi⟩).combined_score ≤
        (res.items.get ⟨i, Nat.lt_of_succ_lt hi⟩).combined_score ∧
      ((res.items.get ⟨i + 1, hi⟩).combined_score =
          (res.items.get ⟨i, Nat.lt_of_succ_lt hi⟩).combined_score →
        (res.items.get ⟨i + 1, hi⟩).item.created_at ≤
            (res.items.get ⟨i, Nat.lt_of_succ_lt hi⟩).item.created_at ∧
          ((res.items.get ⟨i + 1, hi⟩).item.created_at =
              (res.items.get ⟨i, Nat.lt_of_succ_lt hi⟩).item.created_at →
            (res.items.get ⟨i + 1, hi⟩).item.id ≤
              (res.items.get ⟨i, Nat.lt_of_succ_lt hi⟩).item.id)) := by
  obtain ⟨hv, rfl⟩ := (search_ok_iff sem q store t res).mp hres
  have hsorted : List.Sorted rankedBefore (rankCandidates sem q store) := by
    unfold rankCandidates
    exact List.sorted_insertionSort rankedBefore _
  have hpage : List.Sorted rankedBefore
      (((rankCandidates sem q store).drop q.offset.toNat).take
        q.limit.toNat) :=
    List.Pairwise.sublist
      (List.Sublist.trans (List.take_sublist _ _) (List.drop_sublist _ _))
      hsorted
  have hrel := List.pairwise_iff_getElem.mp hpage i (i + 1)
    (Nat.lt_of_succ_lt hi) hi (Nat.lt_succ_self i)
  simp only [List.get_eq_getElem]
  rcases hrel with h | ⟨h1, h2⟩
  · exact ⟨le_of_lt h, fun heq => absurd heq (ne_of_lt h)⟩
  · refine ⟨le_of_eq h1, fun _ => ?_⟩
    rcases h2 with h2 | ⟨h2, h3⟩
    · exact ⟨le_of_lt h2, fun hce => absurd hce (ne_of_lt h2)⟩
    · exact ⟨le_of_eq h2, fun _ => h3⟩

/-- Witness for C1 on the concrete two-item store: the page is the
descending list `[score 2, score 1]` and adjacency holds at index 0. -/
theorem search_results_sorted_witness :
    search wSem wQuery wStore 1 = Except.ok wRes ∧
      ((wRes.items.get ⟨1, by decide⟩).combined_score ≤
          (wRes.items.get ⟨0, by decide⟩).combined_score ∧
        ((wRes.items.get ⟨1, by decide⟩).combined_score =
            (wRes.items.get ⟨0, by decide⟩).combined_score →
          (wRes.items.get ⟨1, by decide⟩).item.created_at ≤
              (wRes.items.get ⟨0, by decide⟩).item.created_at ∧
            ((wRes.items.get ⟨1, by decide⟩).item.created_at =
                (wRes.items.get ⟨0, by decide⟩).item.created_at →
              (wRes.items.get ⟨1, by decide⟩).item.id ≤
                (wRes.items.get ⟨0, by decide⟩).item.id))) :=
  ⟨by decide, search_results_sorted wSem wQuery wStore 1 wRes (by decide) 0
    (by decide)⟩

/-- C9: every successful search reports the wall-clock duration supplied by
the runtime clock as `execution_time_ms` and a `total` equal to the number
of matching items before pagination (after filtering and zero-relevance
exclusion); in particular `limit = 0` yields `items = []` with `total`
still the full matched count. -/
theorem search_total_and_timing (sem : String → List ℚ → ℚ)
    (q : SearchQuery) (store : List ContextItem) (t : ℚ)
    (res : SearchResult) (hres : search sem q store t = Except.ok res) :
    res.execution_time_ms = t ∧
      res.total = (rankCandidates sem q store).length ∧
      res.items = ((rankCandidates sem q store).drop
        q.offset.toNat).take q.limit.toNat ∧
      (q.limit = 0 → res.items = []) := by
  obtain ⟨hv, rfl⟩ := (search_ok_iff sem q store t res).mp hres
  refine ⟨rfl, rfl, rfl, fun hl => ?_⟩
  simp [hl]

def wQueryLimit0 : SearchQuery := { wQuery with limit := 0 }

def wResLimit0 : SearchResult :=
  { items := [], total := 2, execution_time_ms := 1 }

/-- Witness for C9: with `limit = 0` on the two-item store the result has
no items while `total` still reports both matches. -/
theorem search_total_and_timing_witness :
    search wSem wQueryLimit0 wStore 1 = Except.ok wResLimit0 ∧
      (wResLimit0.execution_time_ms = 1 ∧
        wResLimit0.total = (rankCandidates wSem wQueryLimit0 wStore).length ∧
        wResLimit0.items = ((rankCandidates wSem wQueryLimit0 wStore).drop
          wQueryLimit0.offset.toNat).take wQueryLimit0.limit.toNat ∧
        (wQueryLimit0.limit = 0 → wResLimit0.items = [])) :=
  ⟨by decide,
    search_total_and_timing wSem wQueryLimit0 wStore 1 wResLimit0 (by decide)⟩

/-- C7: the keyword score of the empty query is `0` for every item, and a
keyword-mode search with an empty query string returns zero ranked results
rather than matching everything. -/
theorem keyword_empty_query_no_results :
    (∀ title content, keywordScore "" title content = 0) ∧
      ∀ (sem : String → List ℚ → ℚ) (q : SearchQuery)
        (store : List ContextItem) (t : ℚ) (res : SearchResult),
        q.query = "" → q.mode = "keyword" →
        search sem q store t = Except.ok res →
        res.items = [] ∧ res.total = 0 := by
  refine ⟨keywordScore_empty, ?_⟩
  intro sem q store t res hq hm hres
  obtain ⟨hv, rfl⟩ := (search_ok_iff sem q store t res).mp hres
  have hscore : ∀ it, combinedScore sem q it = 0 := by
    intro it
    unfold combinedScore
    rw [hm, if_neg (by decide), if_pos rfl]
    unfold itemKeywordScore
    rw [hq]
    exact keywordScore_empty _ _
  have hrank : rankCandidates sem q store = [] := by
    unfold rankCandidates
    have hrel : ((store.filter (matchesFilters q)).map fun it =>
        ScoredItem.mk it (combinedScore sem q it)).filter
          (fun s => decide (s.combined_score ≠ 0)) = [] := by
      apply List.filter_eq_nil_iff.mpr
      intro s hs
      obtain ⟨it, _, rfl⟩ := List.mem_map.mp hs
      simp [hscore it]
    rw [hrel]
    rfl
  rw [hrank]
  simp

def wQueryEmpty : SearchQuery :=
  { query := "", mode := "keyword", semantic_weight := 0,
    limit := 50, offset := 0 }

def wResEmpty : SearchResult :=
  { items := [], total := 0, execution_time_ms := 1 }

/-- Witness for C7: a keyword search for the empty query over the two-item
store succeeds with zero matches; the empty-query score on concrete texts
is `0`. -/
theorem keyword_empty_query_no_results_witness :
    (wQueryEmpty.query = "" ∧ wQueryEmpty.mode = "keyword" ∧
        search wSem wQueryEmpty wStore 1 = Except.ok wResEmpty) ∧
      (keywordScore "" "alpha" "alpha content" = 0 ∧
        (wResEmpty.items = [] ∧ wResEmpty.total = 0)) :=
  ⟨⟨rfl, rfl, by decide⟩,
    keyword_empty_query_no_results.1 "alpha" "alpha content",
    keyword_empty_query_no_results.2 wSem wQueryEmpty wStore 1 wResEmpty rfl
      rfl (by decide)⟩

/-- C5: an item with `is_active = false` appears in no search result and no
listing, while soft deletion itself only flips `is_active` to `false` and
refreshes `updated_at`, leaving the row in the store. -/
theorem soft_deleted_invisible :
    (∀ (sem : String → List ℚ → ℚ) (q : SearchQuery)
        (store : List ContextItem) (t : ℚ) (res : SearchResult),
        search sem q store t = Except.ok res →
        ∀ s ∈ res.items, s.item.is_active = true) ∧
      (∀ (store : List ContextItem) (limit offset : Nat)
        (it : ContextItem), it ∈ listItems store limit offset →
        it.is_active = true) ∧
      ∀ (store : List ContextItem) (id now : Nat)
        (store' : List ContextItem),
        softDelete store id now = Except.ok store' →
        store' = store.map fun it =>
          if it.id = id then
            { it with is_active := false, updated_at := now }
          else it := by
  refine ⟨?_, ?_, ?_⟩
  · intro sem q store t res hres s hs
    obtain ⟨hv, rfl⟩ := (search_ok_iff sem q store t res).mp hres
    have h1 : s ∈ rankCandidates sem q store :=
      (List.Sublist.trans (List.take_sublist _ _)
        (List.drop_sublist _ _)).subset hs
    have h2 : s ∈ ((store.filter (matchesFilters q)).map fun it =>
        ScoredItem.mk it (combinedScore sem q it)).filter
          (fun s => decide (s.combined_score ≠ 0)) :=
      ((List.perm_insertionSort rankedBefore _).mem_iff).mp h1
    have h3 := List.mem_of_mem_filter h2
    obtain ⟨it, hit, rfl⟩ := List.mem_map.mp h3
    have h4 := List.of_mem_filter hit
    unfold matchesFilters at h4
    simp only [Bool.and_eq_true] at h4
    exact h4.1.1.1
  · intro store limit offset it hit
    have h1 : it ∈ store.filter fun it => it.is_active :=
      (List.Sublist.trans (List.take_sublist _ _)
        (List.drop_sublist _ _)).subset hit
    exact List.of_mem_filter h1
  · intro store id now store' h
    unfold softDelete at h
    split_ifs at h with hc
    simp only [Except.ok.injEq] at h
    exact h.symm

def wInactive : ContextItem :=
  { id := 3, title := "gone", content := "gone", content_type := "text",
    tags := [], is_active := false, created_at := 5, updated_at := 5 }

/-- Witness for C5: in the concrete search result every returned item is
active, the listing over a store holding an inactive row omits it, and soft
deletion of item 1 flips exactly `is_active`/`updated_at`. -/
theorem soft_deleted_invisible_witness :
    (search wSem wQuery (wInactive :: wStore) 1 = Except.ok wRes ∧
        ScoredItem.mk wItemA 2 ∈ wRes.items ∧
        (ScoredItem.mk wItemA 2).item.is_active = true) ∧
      (listItems (wInactive :: wStore) 10 0 = [wItemB, wItemA] ∧
        (wItemB ∈ listItems (wInactive :: wStore) 10 0 →
          wItemB.is_active = true)) ∧
      softDelete [wItemA] 1 99 =
        Except.ok [{ wItemA with is_active := false, updated_at := 99 }] :=
  ⟨⟨by decide, by decide,
      soft_deleted_invisible.1 wSem wQuery (wInactive :: wStore) 1 wRes
        (by decide) (ScoredItem.mk wItemA 2) (by decide)⟩,
    ⟨by decide, fun h =>
      soft_deleted_invisible.2.1 (wInactive :: wStore) 10 0 wItemB h⟩,
    by decide⟩

theorem rankCandidates_congr (sem : String → List ℚ → ℚ)
    (q q' : SearchQuery) (store : List ContextItem)
    (hf : ∀ it, matchesFilters q it = matchesFilters q' it)
    (hs : ∀ it, combinedScore sem q it = combinedScore sem q' it) :
    rankCandidates sem q store = rankCandidates sem q' store := by
  unfold rankCandidates
  rw [List.filter_congr fun it _ => hf it]
  rw [List.map_congr_left fun it _ => by rw [hs it]]

theorem search_congr (sem : String → List ℚ → ℚ) (q q' : SearchQuery)
    (store : List ContextItem) (t : ℚ)
    (hf : ∀ it, matchesFilters q it = matchesFilters q' it)
    (hs : ∀ it, combinedScore sem q it = combinedScore sem q' it)
    (hv : validQuery q ↔ validQuery q')
    (hl : q.limit = q'.limit) (ho : q.offset = q'.offset) :
    search sem q store t = search sem q' store t := by
  unfold search
  have hr := rankCandidates_congr sem q q' store hf hs
  by_cases h : validQuery q
  · rw [if_pos h, if_pos (hv.mp h), hr, hl, ho]
  · rw [if_neg h, if_neg fun h' => h (hv.mpr h')]

/-- C2: in hybrid mode the combined score is
`w * semantic_score + (1 - w) * keyword_score`; consequently a hybrid
search with `semantic_weight = 0` produces exactly the pure keyword
ranking and one with `semantic_weight = 1` exactly the pure semantic
ranking.  (The default weight `defaultSemanticWeight` is `7/10`.) -/
theorem hybrid_weight_formula_and_endpoints (sem : String → List ℚ → ℚ)
    (q : SearchQuery) (store : List ContextItem) (t : ℚ) :
    (q.mode = "hybrid" → ∀ it, combinedScore sem q it =
        q.semantic_weight * itemSemanticScore sem q.query it +
          (1 - q.semantic_weight) * itemKeywordScore q.query it) ∧
      (q.mode = "hybrid" → q.semantic_weight = 0 →
        search sem q store t =
          search sem { q with mode := "keyword" } store t) ∧
      (q.mode = "hybrid" → q.semantic_weight = 1 →
        search sem q store t =
          search sem { q with mode := "semantic" } store t) := by
  refine ⟨?_, ?_, ?_⟩
  · intro hm it
    unfold combinedScore
    rw [hm, if_neg (by decide), if_neg (by decide)]
  · intro hm hw
    apply search_congr
    · intro it
      rfl
    · intro it
      unfold combinedScore
      rw [hm, if_neg (by decide), if_neg (by decide),
        if_neg ((by decide : ¬("keyword" = "semantic")) :
          ¬({ q with mode := "keyword" } : SearchQuery).mode = "semantic"),
        if_pos (show ({ q with mode := "keyword" } : SearchQuery).mode =
          "keyword" from rfl),
        show ({ q with mode := "keyword" } : SearchQuery).query = q.query
          from rfl,
        hw]
      ring
    · unfold validQuery
      rw [hm,
        show ({ q with mode := "keyword" } : SearchQuery).mode = "keyword"
          from rfl]
      simp [knownModes]
    · rfl
    · rfl
  · intro hm hw
    apply search_congr
    · intro it
      rfl
    · intro it
      unfold combinedScore
      rw [hm, if_neg (by decide), if_neg (by decide),
        if_pos (show ({ q with mode := "semantic" } : SearchQuery).mode =
          "semantic" from rfl),
        show ({ q with mode := "semantic" } : SearchQuery).query = q.query
          from rfl,
        hw]
      ring
    · unfold validQuery
      rw [hm,
        show ({ q with mode := "semantic" } : SearchQuery).mode = "semantic"
          from rfl]
      simp [knownModes]
    · rfl
    · rfl

def wQueryHybrid0 : SearchQuery :=
  { query := "alpha", mode := "hybrid", semantic_weight := 0,
    limit := 10, offset := 0 }

/-- Witness for C2: at weight `0` the concrete hybrid search coincides with
the keyword-mode search. -/
theorem hybrid_weight_formula_and_endpoints_witness :
    wQueryHybrid0.mode = "hybrid" ∧ wQueryHybrid0.semantic_weight = 0 ∧
      search wSem wQueryHybrid0 wStore 1 =
        search wSem { wQueryHybrid0 with mode := "keyword" } wStore 1 :=
  ⟨rfl, rfl,
    (hybrid_weight_formula_and_endpoints wSem wQueryHybrid0 wStore 1).2.1
      rfl rfl⟩

/-- The out-of-range parameter conditions of §4.4. -/
def invalidParams (q : SearchQuery) : Prop :=
  q.limit < 0 ∨ q.offset < 0 ∨ q.semantic_weight < 0 ∨
    1 < q.semantic_weight ∨ q.mode ∉ knownModes

instance : DecidablePred invalidParams := fun q => by
  unfold invalidParams; infer_instance

theorem invalidParams_iff_not_valid (q : SearchQuery) :
    invalidParams q ↔ ¬ validQuery q := by
  unfold invalidParams validQuery
  constructor
  · rintro (h | h | h | h | h) ⟨h1, h2, h3, h4, h5⟩
    · exact absurd h1 (not_le.mpr h)
    · exact absurd h2 (not_le.mpr h)
    · exact absurd h3 (not_le.mpr h)
    · exact absurd h4 (not_le.mpr h)
    · exact h h5
  · intro h
    by_contra hc
    push_neg at hc
    obtain ⟨hc1, hc2, hc3, hc4, hc5⟩ := hc
    exact h ⟨hc1, hc2, hc3, hc4, hc5⟩

/-- C8: `search` fails with `InvalidQuery` exactly when a parameter is out
of range (`limit < 0`, `offset < 0`, `semantic_weight` outside `[0,1]`, or
an unknown mode), and never raises for an empty result set: with valid
parameters it succeeds, on the empty store with `total = 0`. -/
theorem search_invalid_query_iff (sem : String → List ℚ → ℚ)
    (q : SearchQuery) (store : List ContextItem) (t : ℚ) :
    (search sem q store t = Except.error SearchError.InvalidQuery ↔
        invalidParams q) ∧
      ((∃ res, search sem q store t = Except.ok res) ↔ ¬ invalidParams q) ∧
      (¬ invalidParams q → search sem q [] t =
        Except.ok { items := [], total := 0, execution_time_ms := t }) := by
  have hiff := invalidParams_iff_not_valid q
  refine ⟨?_, ?_, ?_⟩
  · unfold search
    by_cases hval : validQuery q
    · rw [if_pos hval]
      exact iff_of_false (fun hh => Except.noConfusion hh)
        fun h => hiff.mp h hval
    · rw [if_neg hval]
      exact iff_of_true rfl (hiff.mpr hval)
  · unfold search
    by_cases hval : validQuery q
    · rw [if_pos hval]
      exact iff_of_true ⟨_, rfl⟩ fun h => hiff.mp h hval
    · rw [if_neg hval]
      constructor
      · rintro ⟨res, hres⟩
        exact Except.noConfusion hres
      · intro h
        exact absurd (hiff.mpr hval) h
  · intro h
    have hval : validQuery q := by
      by_contra hc
      exact h (hiff.mpr hc)
    unfold search
    rw [if_pos hval]
    have hr : rankCandidates sem q [] = [] := rfl
    rw [hr]
    simp

def wQueryBad : SearchQuery :=
  { query := "alpha", mode := "semantic", semantic_weight := 1,
    limit := -1, offset := 0 }

/-- Witness for C8: the negative-limit query is rejected with
`InvalidQuery`, and the valid empty-query search over the empty store
succeeds with `total = 0`. -/
theorem search_invalid_query_iff_witness :
    search wSem wQueryBad wStore 1 =
        Except.error SearchError.InvalidQuery ∧
      search wSem wQuery [] 1 =
        Except.ok { items := [], total := 0, execution_time_ms := 1 } :=
  ⟨(search_invalid_query_iff wSem wQueryBad wStore 1).1.mpr
      (Or.inl (by decide)),
    (search_invalid_query_iff wSem wQuery [] 1).2.2 (by decide)⟩

/-- C4: an update that leaves `content` unchanged keeps the stored vector
byte-for-byte; an update that changes `content` recomputes it — the vector
becomes the fresh embedding when embedding succeeds and is left as it was
when embedding fails. -/
theorem update_embedding_policy (embed : String → Option (List ℚ))
    (it : ContextItem) (p : ItemPatch) (now : Nat) :
    ((p.content = none ∨ p.content = some it.content) →
        (applyUpdate embed it p now).vector = it.vector) ∧
      ∀ c, p.content = some c → c ≠ it.content →
        (applyUpdate embed it p now).vector =
          (match embed c with
            | some v => some v
            | none => it.vector) := by
  constructor
  · intro hp
    unfold applyUpdate
    rcases hp with hp | hp
    · rw [hp]
      simp
    · rw [hp]
      simp
  · intro c hc hne
    unfold applyUpdate
    rw [hc]
    simp only [Option.getD_some]
    rw [if_neg hne]
    cases hemb : embed c with
    | some v => simp
    | none => simp

def wEmbed : String → Option (List ℚ) := fun _ => some [5]

def wPatchContent : ItemPatch := { content := some "changed" }

def wPatchMeta : ItemPatch := { title := some "renamed", tags := some ["x"] }

/-- Witness for C4: a content-changing patch installs the fresh embedding
`[5]` while a metadata-only patch leaves the vector `[2]` untouched. -/
theorem update_embedding_policy_witness :
    (wPatchContent.content = some "changed" ∧ "changed" ≠ wItemA.content ∧
        (applyUpdate wEmbed wItemA wPatchContent 42).vector = some [5]) ∧
      (wPatchMeta.content = none ∧
        (applyUpdate wEmbed wItemA wPatchMeta 42).vector = wItemA.vector) :=
  ⟨⟨rfl, by decide,
      (update_embedding_policy wEmbed wItemA wPatchContent 42).2 "changed"
        rfl (by decide)⟩,
    rfl,
    (update_embedding_policy wEmbed wItemA wPatchMeta 42).1 (Or.inl rfl)⟩

/-- C10: the frontend never re-orders ranked search results — whenever
`searchResults` is set, `filteredContextItems` returns the server's items
in exactly the order received, and the client-side column sorting is
applied only when no search results are present. -/
theorem fe_search_order_preserved :
    (∀ (r : FESearchResult) (contextItems : List ContextItem)
        (sortField : Option SortField) (sortDirection : SortDirection),
        filteredContextItems (some r) contextItems sortField sortDirection =
          r.items) ∧
      ∀ (contextItems : List ContextItem) (f : SortField)
        (d : SortDirection),
        filteredContextItems none contextItems (some f) d =
          clientSort f d contextItems := by
  constructor
  · intro r items sf sd
    cases sf <;> rfl
  · intro items f d
    rfl

end Cortex
